import Mathlib

/-!
Shallow embedding of the mlspp group state machine (`state.cpp`) and the
HKDF implementation (`lib/hpke/src/hkdf.cpp`), with theorems settling the
specification claims about them.

Conventions:
* `Bytes` is `List Nat`, one entry per byte.
* The cryptographic suite binding (HMAC, signature verification,
  `derive_secret`) and the `RatchetTree` implementation are external
  collaborators whose code is not part of the verified sources; they are
  abstracted as explicit structures of functions (`Crypto`, `TreeOps`)
  threaded through the state-machine definitions, which themselves follow
  `state.cpp` line by line.
* C++ exceptions are modelled with `Except Err`; a `void` method mutating
  `*this` becomes a function `State → Except Err State`.
-/

namespace Mls

abbrev Bytes := List Nat

/-- Error taxonomy: `state.cpp` throws `InvalidParameterError` and
`ProtocolError`; external collaborators (tree, roster, crypto) may fail with
their own errors, collected in `external`. -/
inductive Err where
  | invalidParameter (msg : String)
  | protocolError (msg : String)
  | external (msg : String)
  deriving DecidableEq, Repr

/-- Modelled from the spec: the cryptographic suite contract consumed by the
state machine (HMAC for HKDF-Extract, signature verification, and
`derive_secret(k, label, state)` which depends on the state only through its
wire encoding).  The implementations live outside the verified sources, so
they are abstract function parameters here. -/
structure Crypto where
  hmac : Bytes → Bytes → Bytes
  hashLen : Nat
  sigVerify : Bytes → Bytes → Bytes → Bool
  deriveSecret : Bytes → String → Bytes → Bytes

/-- An encoded ratchet tree; the tree implementation is external, so its
state is kept abstract as bytes. -/
abbrev Tree := Bytes

/-- An encoded `RatchetPath`, kept abstract for the same reason. -/
abbrev Path := Bytes

/-- Modelled from the spec: the `RatchetTree` operations invoked by
`state.cpp` (`size`, `decrypt`, `merge`, `set_leaf`, `root().secret()`).
The tree implementation is not part of the verified sources, so the
operations are abstract function parameters; `decrypt` fills in the path's
secrets without touching the tree, `merge` and `setLeaf` return the mutated
tree, and any of them may fail. -/
structure TreeOps where
  size : Tree → Nat
  decrypt : Tree → Nat → Path → Except Err Path
  merge : Tree → Nat → Path → Except Err Tree
  setLeaf : Tree → Nat → Bytes → Except Err Tree
  rootSecret : Tree → Except Err Bytes

/-- A member credential.  `RawKeyCredential` wraps exactly the raw signature
public key, which is all `state.cpp` reads back (`get(i).public_key()`), so a
credential is modelled as those key bytes. -/
abbrev Credential := Bytes

/-- Modelled from the spec: the roster is an ordered sequence of credentials
indexed by leaf index, append-only except for `copy`. -/
abbrev Roster := List Credential

/-- Roster append (`Roster::add`). -/
def rosterAdd (r : Roster) (c : Credential) : Roster := r ++ [c]

/-- Modelled from the spec: roster lookup (`Roster::get`), failing on an
out-of-range index. -/
def rosterGet (r : Roster) (i : Nat) : Except Err Credential :=
  match r.get? i with
  | some c => .ok c
  | none => .error (.external "roster index out of range")

/-- Modelled from the spec: `Roster::copy(dst, src)` overwrites the entry at
`dst` with the entry at `src` (used by Remove to record who expelled whom). -/
def rosterCopy (r : Roster) (dst src : Nat) : Except Err Roster := do
  let c ← rosterGet r src
  if dst < r.length then
    pure (r.set dst c)
  else
    throw (.external "roster index out of range")

/-- UserInitKey: cipher suites, one init key per suite, identity key, and a
signature over the preceding fields. -/
structure UserInitKey where
  cipherSuites : List Nat
  initKeys : List Bytes
  identityKey : Bytes
  signature : Bytes
  deriving DecidableEq, Repr

/-- A canonical length-prefixed flattening of a list of byte strings, used
for signature bases. -/
def encodeVec (v : List Bytes) : Bytes :=
  v.foldl (fun acc b => acc ++ [b.length] ++ b) []

/-- Modelled from the spec: the `to-be-signed` serialization of a
`UserInitKey` — all fields except the signature under the wire codec. -/
def uikTBS (u : UserInitKey) : Bytes :=
  [u.cipherSuites.length] ++ u.cipherSuites
    ++ encodeVec u.initKeys ++ [u.identityKey.length] ++ u.identityKey

/-- Modelled from the spec: `UserInitKey::verify` checks the signature over
the serialized fields under the identity key. -/
def uikVerify (C : Crypto) (u : UserInitKey) : Bool :=
  C.sigVerify u.identityKey (uikTBS u) u.signature

structure AddOp where
  path : Path
  initKey : UserInitKey
  deriving DecidableEq, Repr

structure UpdateOp where
  path : Path
  deriving DecidableEq, Repr

structure RemoveOp where
  removed : Nat
  path : Path
  deriving DecidableEq, Repr

/-- GroupOperation: tagged union over Add / Update / Remove. -/
inductive GroupOperation where
  | add (a : AddOp)
  | update (u : UpdateOp)
  | remove (r : RemoveOp)
  deriving DecidableEq, Repr

/-- Handshake: prior epoch, operation, signer index, signature. -/
structure Handshake where
  priorEpoch : Nat
  operation : GroupOperation
  signerIndex : Nat
  signature : Bytes
  deriving DecidableEq, Repr

/-- The fields of `mls::State`.  The transcript is only ever copied and
serialized by the embedded code, so it is kept as its encoded bytes. -/
structure State where
  index : Nat
  identityPriv : Bytes
  epoch : Nat
  groupId : Bytes
  suite : Nat
  messageMasterSecret : Bytes
  initSecret : Bytes
  tree : Tree
  roster : Roster
  transcript : Bytes
  cachedLeafSecret : Bytes
  deriving DecidableEq, Repr

/-- Wire encoding of a `State` (`operator<<(tls::ostream&, const State&)`):
group_id, epoch, roster, tree, transcript, in that order. -/
def marshalState (s : State) : Bytes :=
  [s.groupId.length] ++ s.groupId ++ [s.epoch]
    ++ encodeVec s.roster ++ [s.tree.length] ++ s.tree
    ++ [s.transcript.length] ++ s.transcript

/-- State equality (`operator==(const State&, const State&)`): compares
epoch, group_id, roster, tree, message_master_secret and init_secret. -/
def stateEq (lhs rhs : State) : Bool :=
  let epoch := lhs.epoch == rhs.epoch
  let group_id := lhs.groupId == rhs.groupId
  let roster := lhs.roster == rhs.roster
  let ratchet_tree := lhs.tree == rhs.tree
  let message_master_secret :=
    lhs.messageMasterSecret == rhs.messageMasterSecret
  let init_secret := lhs.initSecret == rhs.initSecret
  epoch && group_id && roster && ratchet_tree && message_master_secret &&
    init_secret

/-- HKDF-Extract as used by `state.cpp` (`hkdf_extract(suite, salt, ikm)`),
per `HKDF::extract` in `lib/hpke/src/hkdf.cpp`: HMAC under the suite's
digest with the salt as key. -/
def hkdf_extract (C : Crypto) (salt ikm : Bytes) : Bytes :=
  C.hmac salt ikm

/-- `State::derive_epoch_keys(update_secret)`:
`epoch_secret = hkdf_extract(suite, init_secret, update_secret)`, then
`message_master_secret = derive_secret(epoch_secret, "msg", *this)`, then
`init_secret = derive_secret(epoch_secret, "init", *this)`, sequentially
mutating the state. -/
def derive_epoch_keys (C : Crypto) (s : State) (update_secret : Bytes) :
    State :=
  let epoch_secret := hkdf_extract C s.initSecret update_secret
  let s1 := { s with
    messageMasterSecret := C.deriveSecret epoch_secret "msg" (marshalState s) }
  { s1 with
    initSecret := C.deriveSecret epoch_secret "init" (marshalState s1) }

/-- `State::update_leaf(index, path, leaf_secret)`: either set the leaf from
the given secret, or decrypt and merge the path; then re-derive the epoch
keys from the new root secret. -/
def update_leaf (T : TreeOps) (C : Crypto) (s : State) (index : Nat)
    (path : Path) (leaf_secret : Option Bytes) : Except Err State := do
  let tree' ←
    match leaf_secret with
    | some sec => T.setLeaf s.tree index sec
    | none => do
        let temp_path ← T.decrypt s.tree index path
        T.merge s.tree index temp_path
  let s := { s with tree := tree' }
  let update_secret ← T.rootSecret s.tree
  pure (derive_epoch_keys C s update_secret)

/-- `State::handle(const Add&)`: verify the `UserInitKey` signature, add the
new leaf by decrypting and merging the path at the current tree size, append
`RawKeyCredential{identity_key}` to the roster, and re-derive the epoch keys
from the new root secret.  (The source also reads `init_keys[0]` into an
otherwise unused local.) -/
def handleAdd (T : TreeOps) (C : Crypto) (s : State) (add : AddOp) :
    Except Err State := do
  if !(uikVerify C add.initKey) then
    throw (.invalidParameter "Invalid signature on init key in group add")
  let identity_key := add.initKey.identityKey
  let tree_size := T.size s.tree
  let path ← T.decrypt s.tree tree_size add.path
  let tree' ← T.merge s.tree tree_size path
  let s := { s with tree := tree' }
  let s := { s with roster := rosterAdd s.roster identity_key }
  let update_secret ← T.rootSecret s.tree
  pure (derive_epoch_keys C s update_secret)

/-- `State::handle(uint32_t, const Update&)`: for a self-update require the
cached leaf secret to be non-empty, use it and clear it; otherwise leave the
leaf secret absent; then `update_leaf`. -/
def handleUpdate (T : TreeOps) (C : Crypto) (s : State) (index : Nat)
    (update : UpdateOp) : Except Err State := do
  let (leaf_secret, s) ←
    if index == s.index then
      if s.cachedLeafSecret.length == 0 then
        throw (.invalidParameter "Got self-update without generating one")
      else
        pure (some s.cachedLeafSecret, { s with cachedLeafSecret := [] })
    else
      pure ((none : Option Bytes), s)
  update_leaf T C s index update.path leaf_secret

/-- `State::handle(uint32_t, const Remove&)`: `update_leaf` toward the
removed leaf with no local leaf secret, then `roster.copy(removed, index)`
where `index` is the signer's leaf index. -/
def handleRemove (T : TreeOps) (C : Crypto) (s : State) (index : Nat)
    (remove : RemoveOp) : Except Err State := do
  let s ← update_leaf T C s remove.removed remove.path none
  let roster' ← rosterCopy s.roster remove.removed index
  pure { s with roster := roster' }

/-- `State::handle(uint32_t signer_index, const GroupOperation&)`: copy the
state, bump the epoch, dispatch on the operation type, and return the
successor. -/
def handleOp (T : TreeOps) (C : Crypto) (s : State) (signer_index : Nat)
    (operation : GroupOperation) : Except Err State :=
  let next := { s with epoch := s.epoch + 1 }
  match operation with
  | .add a => handleAdd T C next a
  | .update u => handleUpdate T C next signer_index u
  | .remove r => handleRemove T C next signer_index r

/-- `State::verify(signer_index, signature)`: verify the signature over the
wire encoding of the state under the public key of the roster entry at the
signer index. -/
def verify (C : Crypto) (s : State) (signer_index : Nat) (signature : Bytes) :
    Except Err Bool := do
  let tbs := marshalState s
  let pub ← rosterGet s.roster signer_index
  pure (C.sigVerify pub tbs signature)

/-- `State::handle(const Handshake&)`: reject on epoch mismatch, apply the
operation to a copy, verify the handshake signature against the successor,
and return the successor. -/
def handle (T : TreeOps) (C : Crypto) (s : State) (handshake : Handshake) :
    Except Err State := do
  if handshake.priorEpoch ≠ s.epoch then
    throw (.invalidParameter "Epoch mismatch")
  let next ← handleOp T C s handshake.signerIndex handshake.operation
  let ok ← verify C next handshake.signerIndex handshake.signature
  if !ok then
    throw (.invalidParameter "Invalid handshake message signature")
  pure next

/-- A sequence of handshakes applied through `handle`. -/
def applySeq (T : TreeOps) (C : Crypto) (s : State) (hs : List Handshake) :
    Except Err State :=
  hs.foldlM (handle T C) s

/-!
HKDF (`lib/hpke/src/hkdf.cpp`).  `HKDF::expand` is a while-loop appending
HMAC blocks until `okm` reaches the requested size; the loop counter `i` is
a `uint8_t`, so the appended byte is the iteration count modulo 256.  The
loop is embedded with explicit fuel: each iteration appends at least one
byte whenever the HMAC output is non-empty, so `size` rounds of fuel always
suffice, and exhausted fuel (possible only for a degenerate zero-length
HMAC, where the C++ loop would never terminate) yields `none`.
-/

/-- The loop of `HKDF::expand`, one constructor case per remaining round of
fuel.  Arguments after `size`: fuel, `i`, `Ti`, `okm`. -/
def expandAux (hmac : Bytes → Bytes → Bytes) (prk info : Bytes)
    (size : Nat) : Nat → Nat → Bytes → Bytes → Option Bytes
  | 0, _i, _Ti, okm =>
      if size ≤ okm.length then some (okm.take size) else none
  | fuel + 1, i, Ti, okm =>
      if size ≤ okm.length then some (okm.take size)
      else
        let i' := (i + 1) % 256
        let Ti' := hmac prk (Ti ++ info ++ [i'])
        expandAux hmac prk info size fuel i' Ti' (okm ++ Ti')

/-- `HKDF::expand(prk, info, size)`: run the loop from `okm = {}`, `i = 0`,
`Ti = {}`, then truncate to `size` bytes. -/
def hkdf_expand (C : Crypto) (prk info : Bytes) (size : Nat) : Option Bytes :=
  expandAux C.hmac prk info size size 0 [] []

/-- RFC 5869 block stream: `T(0)` is empty and
`T(i) = HMAC(prk, T(i-1) || info || byte(i))` (the byte taken modulo 256, as
the implementation's `uint8_t` counter does). -/
def rfcT (hmac : Bytes → Bytes → Bytes) (prk info : Bytes) : Nat → Bytes
  | 0 => []
  | k + 1 => hmac prk (rfcT hmac prk info k ++ info ++ [(k + 1) % 256])

/-- Concatenation `T(1) || T(2) || ... || T(n)` of the RFC 5869 stream. -/
def rfcStream (hmac : Bytes → Bytes → Bytes) (prk info : Bytes) :
    Nat → Bytes
  | 0 => []
  | n + 1 => rfcStream hmac prk info n ++ rfcT hmac prk info (n + 1)

/-!
Concrete instances used to witness the hypotheses of the theorems below.
-/

/-- A trivial but total tree-operation instance. -/
def T0 : TreeOps where
  size := fun _ => 1
  decrypt := fun _ _ p => .ok p
  merge := fun t _ p => .ok (t ++ p)
  setLeaf := fun _ _ b => .ok b
  rootSecret := fun t => .ok t

/-- A crypto instance with constant one-byte HMAC and always-accepting
signature verification. -/
def C0 : Crypto where
  hmac := fun _ _ => [0]
  hashLen := 1
  sigVerify := fun _ _ _ => true
  deriveSecret := fun k _ _ => k

/-- A crypto instance whose signature verification always rejects. -/
def C1 : Crypto where
  hmac := fun _ _ => [0]
  hashLen := 1
  sigVerify := fun _ _ _ => false
  deriveSecret := fun k _ _ => k

/-- A small concrete state: a two-member group at epoch 0 with a cached
leaf secret. -/
def s0 : State where
  index := 0
  identityPriv := [9]
  epoch := 0
  groupId := [1]
  suite := 0
  messageMasterSecret := []
  initSecret := [2]
  tree := [3]
  roster := [[5], [6]]
  transcript := []
  cachedLeafSecret := [1]

/-- A two-suite `UserInitKey` whose entry matching `s0.suite = 0` sits at
position 1. -/
def uikA : UserInitKey where
  cipherSuites := [1, 0]
  initKeys := [[7], [8]]
  identityKey := [4]
  signature := []

/-- Like `uikA` but with a different init key at position 1, the entry whose
suite matches `s0.suite`. -/
def uikB : UserInitKey where
  cipherSuites := [1, 0]
  initKeys := [[7], [9]]
  identityKey := [4]
  signature := []

/-- A `UserInitKey` none of whose suites matches `s0.suite = 0`. -/
def uikC : UserInitKey where
  cipherSuites := [1, 2]
  initKeys := [[7], [8]]
  identityKey := [4]
  signature := []

/-- An Add handshake at epoch 0 carrying the given `UserInitKey`. -/
def addHS (u : UserInitKey) : Handshake where
  priorEpoch := 0
  operation := .add { path := [2], initKey := u }
  signerIndex := 0
  signature := []

/-- A self-update handshake for `s0` at epoch 0. -/
def hUpd : Handshake where
  priorEpoch := 0
  operation := .update { path := [7] }
  signerIndex := 0
  signature := []

/-- The successor produced by `handle T0 C0 s0 hUpd`. -/
def nUpd : State where
  index := 0
  identityPriv := [9]
  epoch := 1
  groupId := [1]
  suite := 0
  messageMasterSecret := [0]
  initSecret := [0]
  tree := [1]
  roster := [[5], [6]]
  transcript := []
  cachedLeafSecret := []

/-- The state produced by `update_leaf T0 C0 s0 0 [] (some [1])`. -/
def nLeaf : State where
  index := 0
  identityPriv := [9]
  epoch := 0
  groupId := [1]
  suite := 0
  messageMasterSecret := [0]
  initSecret := [0]
  tree := [1]
  roster := [[5], [6]]
  transcript := []
  cachedLeafSecret := [1]

/-!
Small rewriting lemmas for `Except` and structural inversion lemmas for the
handlers, shared by the claim theorems below.
-/

@[simp]
theorem ok_bind {ε α β : Type _} (a : α) (f : α → Except ε β) :
    (Except.ok a >>= f) = f a := rfl

@[simp]
theorem error_bind {ε α β : Type _} (e : ε) (f : α → Except ε β) :
    ((Except.error e : Except ε α) >>= f) = Except.error e := rfl

@[simp]
theorem pure_eq_ok {ε α : Type _} (a : α) :
    (pure a : Except ε α) = Except.ok a := rfl

@[simp]
theorem throw_eq_error {α : Type _} (e : Err) :
    (throw e : Except Err α) = Except.error e := rfl

theorem update_leaf_ok {T : TreeOps} {C : Crypto} {s : State} {idx : Nat}
    {p : Path} {ls : Option Bytes} {next : State}
    (h : update_leaf T C s idx p ls = .ok next) :
    ∃ t root, T.rootSecret t = .ok root ∧
      next = derive_epoch_keys C { s with tree := t } root := by
  unfold update_leaf at h
  rcases ls with _ | sec
  · cases hd : T.decrypt s.tree idx p with
    | error e => rw [hd] at h; simp at h
    | ok tp =>
      rw [hd] at h
      simp only [ok_bind, error_bind] at h
      cases hm : T.merge s.tree idx tp with
      | error e => rw [hm] at h; simp at h
      | ok t =>
        rw [hm] at h
        simp only [ok_bind, error_bind] at h
        cases hr : T.rootSecret t with
        | error e => rw [hr] at h; simp at h
        | ok root =>
          rw [hr] at h
          simp at h
          exact ⟨t, root, hr, h.symm⟩
  · cases hsl : T.setLeaf s.tree idx sec with
    | error e => simp [hsl] at h
    | ok t =>
      simp only [hsl, ok_bind, error_bind] at h
      cases hr : T.rootSecret t with
      | error e => rw [hr] at h; simp at h
      | ok root =>
        rw [hr] at h
        simp at h
        exact ⟨t, root, hr, h.symm⟩

theorem handleAdd_ok {T : TreeOps} {C : Crypto} {s : State} {a : AddOp}
    {next : State} (h : handleAdd T C s a = .ok next) :
    uikVerify C a.initKey = true ∧
    ∃ p t root,
      T.decrypt s.tree (T.size s.tree) a.path = .ok p ∧
      T.merge s.tree (T.size s.tree) p = .ok t ∧
      T.rootSecret t = .ok root ∧
      next = derive_epoch_keys C
        { s with tree := t,
                 roster := rosterAdd s.roster a.initKey.identityKey } root := by
  unfold handleAdd at h
  cases hv : uikVerify C a.initKey with
  | false => rw [hv] at h; simp at h
  | true =>
    rw [hv] at h
    simp only [Bool.not_true, if_neg] at h
    refine ⟨rfl, ?_⟩
    cases hd : T.decrypt s.tree (T.size s.tree) a.path with
    | error e => rw [hd] at h; simp at h
    | ok p =>
      rw [hd] at h
      simp only [ok_bind, error_bind] at h
      cases hm : T.merge s.tree (T.size s.tree) p with
      | error e => rw [hm] at h; simp at h
      | ok t =>
        rw [hm] at h
        simp only [ok_bind, error_bind] at h
        cases hr : T.rootSecret t with
        | error e => rw [hr] at h; simp at h
        | ok root =>
          rw [hr] at h
          simp at h
          exact ⟨p, t, root, rfl, hm, hr, h.symm⟩

theorem handleRemove_ok {T : TreeOps} {C : Crypto} {s : State} {i : Nat}
    {r : RemoveOp} {next : State} (h : handleRemove T C s i r = .ok next) :
    ∃ mid roster',
      update_leaf T C s r.removed r.path none = .ok mid ∧
      rosterCopy mid.roster r.removed i = .ok roster' ∧
      next = { mid with roster := roster' } := by
  unfold handleRemove at h
  cases hu : update_leaf T C s r.removed r.path none with
  | error e => rw [hu] at h; simp at h
  | ok mid =>
    rw [hu] at h
    simp only [ok_bind, error_bind] at h
    cases hc : rosterCopy mid.roster r.removed i with
    | error e => rw [hc] at h; simp at h
    | ok roster' =>
      rw [hc] at h
      simp at h
      exact ⟨mid, roster', rfl, hc, h.symm⟩

theorem handle_ok {T : TreeOps} {C : Crypto} {s : State} {hs : Handshake}
    {next : State} (h : handle T C s hs = .ok next) :
    hs.priorEpoch = s.epoch ∧
    handleOp T C s hs.signerIndex hs.operation = .ok next ∧
    ∃ pub, rosterGet next.roster hs.signerIndex = .ok pub ∧
      C.sigVerify pub (marshalState next) hs.signature = true := by
  unfold handle at h
  by_cases hep : hs.priorEpoch = s.epoch
  · rw [if_neg (by simp [hep])] at h
    refine ⟨hep, ?_⟩
    cases hop : handleOp T C s hs.signerIndex hs.operation with
    | error e => rw [hop] at h; simp at h
    | ok n =>
      rw [hop] at h
      simp only [ok_bind, error_bind, pure_eq_ok, verify] at h
      cases hg : rosterGet n.roster hs.signerIndex with
      | error e => rw [hg] at h; simp at h
      | ok pub =>
        rw [hg] at h
        simp only [ok_bind, error_bind, pure_eq_ok] at h
        cases hv : C.sigVerify pub (marshalState n) hs.signature with
        | false => rw [hv] at h; simp at h
        | true =>
          rw [hv] at h
          simp at h
          subst h
          exact ⟨rfl, pub, hg, hv⟩
  · rw [if_pos (by simp [hep])] at h
    simp at h

theorem handleUpdate_self_empty {T : TreeOps} {C : Crypto} {s : State}
    {u : UpdateOp} (hc : s.cachedLeafSecret = []) :
    handleUpdate T C s s.index u =
      .error (.invalidParameter "Got self-update without generating one") := by
  unfold handleUpdate
  simp [hc]

theorem handleUpdate_self_cached {T : TreeOps} {C : Crypto} {s : State}
    {u : UpdateOp} (hc : s.cachedLeafSecret ≠ []) :
    handleUpdate T C s s.index u =
      update_leaf T C { s with cachedLeafSecret := [] } s.index u.path
        (some s.cachedLeafSecret) := by
  unfold handleUpdate
  simp [hc]

theorem handleUpdate_peer {T : TreeOps} {C : Crypto} {s : State} {idx : Nat}
    {u : UpdateOp} (hne : idx ≠ s.index) :
    handleUpdate T C s idx u = update_leaf T C s idx u.path none := by
  unfold handleUpdate
  simp [hne]

theorem handleUpdate_ok {T : TreeOps} {C : Crypto} {s : State} {idx : Nat}
    {u : UpdateOp} {next : State} (h : handleUpdate T C s idx u = .ok next) :
    ∃ t root, T.rootSecret t = .ok root ∧
      (next = derive_epoch_keys C
          { s with cachedLeafSecret := [], tree := t } root ∨
       next = derive_epoch_keys C { s with tree := t } root) := by
  by_cases hidx : idx = s.index
  · subst hidx
    by_cases hc : s.cachedLeafSecret = []
    · rw [handleUpdate_self_empty hc] at h
      simp at h
    · rw [handleUpdate_self_cached hc] at h
      obtain ⟨t, root, hr, hnext⟩ := update_leaf_ok h
      exact ⟨t, root, hr, Or.inl hnext⟩
  · rw [handleUpdate_peer hidx] at h
    obtain ⟨t, root, hr, hnext⟩ := update_leaf_ok h
    exact ⟨t, root, hr, Or.inr hnext⟩

theorem handleOp_ok_epoch {T : TreeOps} {C : Crypto} {s : State} {i : Nat}
    {op : GroupOperation} {next : State}
    (h : handleOp T C s i op = .ok next) : next.epoch = s.epoch + 1 := by
  cases op with
  | add a =>
    simp only [handleOp] at h
    obtain ⟨-, p, t, root, -, -, -, hnext⟩ := handleAdd_ok h
    subst hnext; rfl
  | update u =>
    simp only [handleOp] at h
    obtain ⟨t, root, -, hnext | hnext⟩ := handleUpdate_ok h <;>
      (subst hnext; rfl)
  | remove r =>
    simp only [handleOp] at h
    obtain ⟨mid, roster', hu, -, hnext⟩ := handleRemove_ok h
    obtain ⟨t, root, -, hmid⟩ := update_leaf_ok hu
    subst hnext hmid
    rfl

/-- Claim C1: `handle` is an apply-or-discard primitive: the receiver is
untouched (in this embedding `handle` is a pure function of the receiver,
mirroring the `const` C++ method which mutates only its local copy `next`),
and a successful call returns a distinct successor state — its epoch is the
receiver's epoch plus one, so it is never equal to the receiver.  A failing
call returns only an error, so the caller's state is exactly the pre-call
state. -/
theorem handle_atomic_distinct_successor (T : TreeOps) (C : Crypto)
    (s : State) (h : Handshake) (next : State)
    (hok : handle T C s h = .ok next) :
    next.epoch = s.epoch + 1 ∧ next ≠ s := by
  obtain ⟨-, hop, -⟩ := handle_ok hok
  have he := handleOp_ok_epoch hop
  refine ⟨he, fun hEq => ?_⟩
  rw [hEq] at he
  omega

/-- Claim C2: a handshake whose `prior_epoch` differs from the receiver's
epoch is rejected with `InvalidParameter("Epoch mismatch")` unconditionally —
before the operation is dispatched and before any signature verification, as
the result does not depend on the operation or signature at all. -/
theorem handle_rejects_epoch_mismatch_first (T : TreeOps) (C : Crypto)
    (s : State) (h : Handshake) (hne : h.priorEpoch ≠ s.epoch) :
    handle T C s h = .error (.invalidParameter "Epoch mismatch") := by
  unfold handle
  rw [if_pos (by simp [hne])]
  simp

/-- Claim C3: `derive_epoch_keys` computes
`epoch_secret = HKDF-Extract(salt = old init_secret, ikm = update_secret)`
and then the message master secret with label `"msg"` and the new init
secret with label `"init"`, both from that epoch secret and the wire
encoding of the successor state, the message master secret being derived
from the pre-overwrite init secret; and every successful `update_leaf`
feeds the root secret of the updated tree into `derive_epoch_keys`. -/
theorem derive_epoch_keys_msg_init_labels (T : TreeOps) (C : Crypto)
    (s : State) (us : Bytes) :
    derive_epoch_keys C s us =
      { s with
        messageMasterSecret :=
          C.deriveSecret (hkdf_extract C s.initSecret us) "msg"
            (marshalState s),
        initSecret :=
          C.deriveSecret (hkdf_extract C s.initSecret us) "init"
            (marshalState s) } ∧
    ∀ idx p ls next, update_leaf T C s idx p ls = .ok next →
      ∃ t root, T.rootSecret t = .ok root ∧
        next = derive_epoch_keys C { s with tree := t } root := by
  constructor
  · rfl
  · intro idx p ls next h
    exact update_leaf_ok h

/-- Claim C6: for a handshake that passes the epoch check and whose
operation applies successfully, `handle` verifies the handshake signature
over the wire encoding of the successor (`marshalState`, i.e. group_id,
epoch, roster, tree, transcript) under the public key at the successor
roster's signer index, returning the successor exactly when verification
succeeds and rejecting it otherwise. -/
theorem handle_verifies_signature_over_successor (T : TreeOps) (C : Crypto)
    (s : State) (h : Handshake) (next : State) (pub : Credential)
    (hep : h.priorEpoch = s.epoch)
    (hop : handleOp T C s h.signerIndex h.operation = .ok next)
    (hpub : rosterGet next.roster h.signerIndex = .ok pub) :
    handle T C s h =
      if C.sigVerify pub (marshalState next) h.signature then .ok next
      else .error (.invalidParameter "Invalid handshake message signature") := by
  unfold handle
  rw [if_neg (by simp [hep])]
  rw [hop]
  simp only [ok_bind, verify, hpub, pure_eq_ok]
  cases C.sigVerify pub (marshalState next) h.signature <;> simp

/-- Claim C7: a self-update (signer index equal to the receiver's own leaf
index) requires the cached leaf secret recorded by a prior `update()` call
to be non-empty, failing with `InvalidParameter` when it is empty; on
success the own leaf is set from the cached secret via `set_leaf` (the path
is not decrypted) and the cache is cleared, so the successor's cache is
empty and a second self-update handshake applied to the successor fails
with the same `InvalidParameter` error. -/
theorem handle_self_update_requires_cached_secret (T : TreeOps) (C : Crypto)
    (s : State) (u : UpdateOp) :
    (s.cachedLeafSecret = [] →
      handleUpdate T C s s.index u =
        .error (.invalidParameter "Got self-update without generating one")) ∧
    (s.cachedLeafSecret ≠ [] →
      handleUpdate T C s s.index u = do
        let t ← T.setLeaf s.tree s.index s.cachedLeafSecret
        let root ← T.rootSecret t
        pure (derive_epoch_keys C
          { s with cachedLeafSecret := [], tree := t } root)) ∧
    (∀ next, handleUpdate T C s s.index u = .ok next →
      next.cachedLeafSecret = [] ∧ next.index = s.index ∧
      ∀ (u' : UpdateOp) (h' : Handshake), h'.priorEpoch = next.epoch →
        h'.signerIndex = next.index → h'.operation = .update u' →
        handle T C next h' =
          .error (.invalidParameter "Got self-update without generating one")) := by
  have hchar : ∀ next, handleUpdate T C s s.index u = .ok next →
      next.cachedLeafSecret = [] ∧ next.index = s.index := by
    intro next hok
    by_cases hc : s.cachedLeafSecret = []
    · rw [handleUpdate_self_empty hc] at hok
      simp at hok
    · rw [handleUpdate_self_cached hc] at hok
      obtain ⟨t, root, -, hnext⟩ := update_leaf_ok hok
      subst hnext
      exact ⟨rfl, rfl⟩
  refine ⟨fun hc => handleUpdate_self_empty hc, fun hc => ?_, ?_⟩
  · rw [handleUpdate_self_cached hc]
    rfl
  · intro next hok
    obtain ⟨hcache, hindex⟩ := hchar next hok
    refine ⟨hcache, hindex, fun u' h' hep hsi hoper => ?_⟩
    unfold handle
    rw [if_neg (by simp [hep])]
    rw [hoper]
    have hstep :
        handleOp T C next h'.signerIndex (GroupOperation.update u') =
          .error (.invalidParameter "Got self-update without generating one") := by
      simp only [handleOp]
      rw [hsi]
      exact handleUpdate_self_empty hcache
    rw [hstep]
    simp

/-- Claim C8: `handle` consumes no randomness, so applying any sequence of
handshakes through it is deterministic: equal starting states produce equal
results, and in particular equal epoch, tree, roster, message master secret
and init secret whenever both runs succeed. -/
theorem handle_deterministic_sequences (T : TreeOps) (C : Crypto)
    (s1 s2 : State) (sigma : List Handshake) (h12 : s1 = s2) :
    applySeq T C s1 sigma = applySeq T C s2 sigma ∧
    ∀ n1 n2, applySeq T C s1 sigma = .ok n1 → applySeq T C s2 sigma = .ok n2 →
      n1.epoch = n2.epoch ∧ n1.tree = n2.tree ∧ n1.roster = n2.roster ∧
      n1.messageMasterSecret = n2.messageMasterSecret ∧
      n1.initSecret = n2.initSecret := by
  subst h12
  refine ⟨rfl, fun n1 n2 e1 e2 => ?_⟩
  rw [e1] at e2
  injection e2 with h2
  subst h2
  exact ⟨rfl, rfl, rfl, rfl, rfl⟩

/-- Claim C10: `operator==` on `State` compares exactly epoch, group_id,
roster, tree, message_master_secret and init_secret: states differing only
in own index, identity private key, cipher suite, transcript or cached leaf
secret compare equal, and the comparison returns true precisely when the six
compared fields agree. -/
theorem state_eq_compares_six_fields (s : State) (i : Nat) (ip : Bytes)
    (su : Nat) (tr : Bytes) (cl : Bytes) (l r : State) :
    stateEq s { s with index := i, identityPriv := ip, suite := su,
                       transcript := tr, cachedLeafSecret := cl } = true ∧
    (stateEq l r = true ↔
      (l.epoch = r.epoch ∧ l.groupId = r.groupId ∧ l.roster = r.roster ∧
       l.tree = r.tree ∧ l.messageMasterSecret = r.messageMasterSecret ∧
       l.initSecret = r.initSecret)) := by
  constructor
  · simp [stateEq]
  · simp [stateEq, and_assoc]

/-- Claim C4 counterexample: `handle` does not select the init-key entry
matching the group's suite.  With always-accepting signature verification,
two Adds whose `UserInitKey`s differ exactly in the entry whose suite equals
`s0.suite` (position 1 of `uikA`/`uikB`) produce identical successors — so
that entry is not used — and an Add offering no matching suite at all
(`uikC`) still succeeds instead of failing. -/
theorem handle_add_suite_selection_counterexample :
    handle T0 C0 s0 (addHS uikA) = handle T0 C0 s0 (addHS uikB) ∧
    (handle T0 C0 s0 (addHS uikA)).isOk = true ∧
    (handle T0 C0 s0 (addHS uikC)).isOk = true :=
  ⟨rfl, rfl, rfl⟩

/-- Claim C4 (amended): when `handle` applies an Add it verifies the
`UserInitKey` signature but performs no per-suite selection and uses no
init-key entry for the new leaf (the leaf material comes from merging
`add.path`): the result depends on the `UserInitKey` only through its
identity key and the outcome of the signature check, so two Add handshakes
agreeing on everything except the init-key list (same path, same identity
key, same verification outcome) are handled identically, whether or not any
offered suite matches `self.suite`. -/
theorem handle_add_independent_of_init_keys (T : TreeOps) (C : Crypto)
    (s : State) (h1 h2 : Handshake) (a1 a2 : AddOp)
    (e1 : h1.operation = .add a1) (e2 : h2.operation = .add a2)
    (hpe : h1.priorEpoch = h2.priorEpoch)
    (hsi : h1.signerIndex = h2.signerIndex)
    (hsig : h1.signature = h2.signature)
    (hpath : a1.path = a2.path)
    (hid : a1.initKey.identityKey = a2.initKey.identityKey)
    (hver : uikVerify C a1.initKey = uikVerify C a2.initKey) :
    handle T C s h1 = handle T C s h2 := by
  have hadd : ∀ s' : State, handleAdd T C s' a1 = handleAdd T C s' a2 := by
    intro s'
    unfold handleAdd
    rw [hver, hpath, hid]
  unfold handle
  rw [hpe, hsi, hsig, e1, e2]
  simp only [handleOp]
  rw [hadd]

theorem rfcStream_length (hmac : Bytes → Bytes → Bytes) (prk info : Bytes)
    (L : Nat) (hlen : ∀ k m, (hmac k m).length = L) (n : Nat) :
    (rfcStream hmac prk info n).length = n * L := by
  induction n with
  | zero => simp [rfcStream]
  | succ n ih => simp [rfcStream, rfcT, hlen, ih, Nat.succ_mul]

theorem rfcStream_take_le (hmac : Bytes → Bytes → Bytes) (prk info : Bytes)
    (L size : Nat) (hlen : ∀ k m, (hmac k m).length = L)
    (a : Nat) (ha : size ≤ a * L) :
    ∀ b, a ≤ b →
      (rfcStream hmac prk info b).take size =
        (rfcStream hmac prk info a).take size := by
  intro b
  induction b with
  | zero =>
    intro hab
    have : a = 0 := Nat.le_zero.mp hab
    subst this
    rfl
  | succ b ih =>
    intro hab
    rcases Nat.lt_or_ge a (b + 1) with hlt | hge
    · have hab' : a ≤ b := Nat.lt_succ_iff.mp hlt
      have hlb : size ≤ (rfcStream hmac prk info b).length := by
        rw [rfcStream_length hmac prk info L hlen b]
        exact le_trans ha (Nat.mul_le_mul_right L hab')
      calc (rfcStream hmac prk info (b + 1)).take size
          = (rfcStream hmac prk info b ++ rfcT hmac prk info (b + 1)).take size := rfl
        _ = (rfcStream hmac prk info b).take size := by
            rw [List.take_append_eq_append_take, Nat.sub_eq_zero_of_le hlb]
            simp
        _ = (rfcStream hmac prk info a).take size := ih hab'
    · have : a = b + 1 := Nat.le_antisymm hab hge
      subst this
      rfl

theorem rfcStream_take_eq (hmac : Bytes → Bytes → Bytes) (prk info : Bytes)
    (L size a b : Nat) (hlen : ∀ k m, (hmac k m).length = L)
    (ha : size ≤ a * L) (hb : size ≤ b * L) :
    (rfcStream hmac prk info a).take size =
      (rfcStream hmac prk info b).take size := by
  rcases le_total a b with h | h
  · exact (rfcStream_take_le hmac prk info L size hlen a ha b h).symm
  · exact rfcStream_take_le hmac prk info L size hlen b hb a h

theorem expandAux_rfc (hmac : Bytes → Bytes → Bytes) (prk info : Bytes)
    (size L : Nat) (hlen : ∀ k m, (hmac k m).length = L) :
    ∀ fuel k, size ≤ (k + fuel) * L →
      expandAux hmac prk info size fuel (k % 256) (rfcT hmac prk info k)
          (rfcStream hmac prk info k) =
        some ((rfcStream hmac prk info (k + fuel)).take size) := by
  intro fuel
  induction fuel with
  | zero =>
    intro k hk
    have hstop : size ≤ (rfcStream hmac prk info k).length := by
      rw [rfcStream_length hmac prk info L hlen k]
      simpa using hk
    simp [expandAux, hstop]
  | succ fuel ih =>
    intro k hk
    by_cases hstop : size ≤ (rfcStream hmac prk info k).length
    · have hkL : size ≤ k * L := by
        rw [rfcStream_length hmac prk info L hlen k] at hstop
        exact hstop
      simp only [expandAux, if_pos hstop]
      congr 1
      exact rfcStream_take_eq hmac prk info L size k (k + (fuel + 1)) hlen hkL
        (le_trans hkL (Nat.mul_le_mul_right L (Nat.le_add_right k (fuel + 1))))
    · simp only [expandAux, if_neg hstop]
      have hi : (k % 256 + 1) % 256 = (k + 1) % 256 := by
        conv_rhs => rw [Nat.add_mod]
      rw [hi]
      rw [show hmac prk (rfcT hmac prk info k ++ info ++ [(k + 1) % 256]) =
            rfcT hmac prk info (k + 1) from rfl]
      rw [show rfcStream hmac prk info k ++ rfcT hmac prk info (k + 1) =
            rfcStream hmac prk info (k + 1) from rfl]
      have hidx : (k + 1) + fuel = k + (fuel + 1) := by omega
      have := ih (k + 1) (by rw [hidx]; exact hk)
      rw [hidx] at this
      exact this

/-- Claim C9: `HKDF::extract(salt, ikm)` is `HMAC(salt, ikm)` under the
suite's digest, and for every `prk`, `info` and requested length `L`,
`HKDF::expand(prk, info, L)` returns the first `L` bytes of the RFC 5869
output stream `T(1) || T(2) || ...` with `T(0)` empty and
`T(i) = HMAC(prk, T(i-1) || info || byte(i))` — stated for any block count
`n` covering `L`, assuming the digest's HMAC has its fixed positive output
length. -/
theorem hkdf_extract_expand_rfc5869 (C : Crypto) (salt ikm prk info : Bytes)
    (L n : Nat) (hlen : ∀ k m, (C.hmac k m).length = C.hashLen)
    (hpos : 0 < C.hashLen) (hn : L ≤ n * C.hashLen) :
    hkdf_extract C salt ikm = C.hmac salt ikm ∧
    hkdf_expand C prk info L =
      some ((rfcStream C.hmac prk info n).take L) := by
  refine ⟨rfl, ?_⟩
  have hL : L ≤ (0 + L) * C.hashLen := by
    rw [Nat.zero_add]
    calc L = L * 1 := (Nat.mul_one L).symm
      _ ≤ L * C.hashLen := Nat.mul_le_mul_left L hpos
  have h0 := expandAux_rfc C.hmac prk info L C.hashLen hlen L 0 hL
  have hgoal : hkdf_expand C prk info L =
      some ((rfcStream C.hmac prk info (0 + L)).take L) := h0
  rw [hgoal]
  congr 1
  exact rfcStream_take_eq C.hmac prk info C.hashLen L (0 + L) n hlen
    (by simpa using hL) hn

/-- Witness for C1 at a concrete successful self-update. -/
theorem handle_atomic_distinct_successor_witness :
    nUpd.epoch = s0.epoch + 1 ∧ nUpd ≠ s0 :=
  handle_atomic_distinct_successor T0 C0 s0 hUpd nUpd rfl

/-- Witness for C2 at a concrete mismatching epoch. -/
theorem handle_rejects_epoch_mismatch_first_witness :
    handle T0 C0 s0 { hUpd with priorEpoch := 5 } =
      .error (.invalidParameter "Epoch mismatch") :=
  handle_rejects_epoch_mismatch_first T0 C0 s0 { hUpd with priorEpoch := 5 }
    (by decide)

/-- Witness for C3 at a concrete successful `update_leaf`. -/
theorem derive_epoch_keys_msg_init_labels_witness :
    ∃ t root, T0.rootSecret t = .ok root ∧
      nLeaf = derive_epoch_keys C0 { s0 with tree := t } root :=
  (derive_epoch_keys_msg_init_labels T0 C0 s0 [4]).2 0 [] (some [1]) nLeaf rfl

/-- Witness for the amended C4 at two concrete Adds differing in their
init-key lists and offered suites. -/
theorem handle_add_independent_of_init_keys_witness :
    handle T0 C0 s0 (addHS uikA) = handle T0 C0 s0 (addHS uikC) :=
  handle_add_independent_of_init_keys T0 C0 s0 (addHS uikA) (addHS uikC)
    { path := [2], initKey := uikA } { path := [2], initKey := uikC }
    rfl rfl rfl rfl rfl rfl rfl rfl

/-- Witness for C6 at a concrete successor and roster entry. -/
theorem handle_verifies_signature_over_successor_witness :
    handle T0 C0 s0 hUpd =
      if C0.sigVerify [5] (marshalState nUpd) hUpd.signature then .ok nUpd
      else .error (.invalidParameter "Invalid handshake message signature") :=
  handle_verifies_signature_over_successor T0 C0 s0 hUpd nUpd [5]
    rfl rfl rfl

/-- Witness for C7 at a concrete state with an empty cached leaf secret. -/
theorem handle_self_update_requires_cached_secret_witness :
    handleUpdate T0 C0 { s0 with cachedLeafSecret := [] }
        ({ s0 with cachedLeafSecret := [] } : State).index { path := [] } =
      .error (.invalidParameter "Got self-update without generating one") :=
  (handle_self_update_requires_cached_secret T0 C0
    { s0 with cachedLeafSecret := [] } { path := [] }).1 rfl

/-- Witness for C8 at a concrete one-handshake sequence. -/
theorem handle_deterministic_sequences_witness :
    nUpd.epoch = nUpd.epoch ∧ nUpd.tree = nUpd.tree ∧
    nUpd.roster = nUpd.roster ∧
    nUpd.messageMasterSecret = nUpd.messageMasterSecret ∧
    nUpd.initSecret = nUpd.initSecret :=
  (handle_deterministic_sequences T0 C0 s0 s0 [hUpd] rfl).2 nUpd nUpd rfl rfl

/-- Witness for C9 at a concrete fixed-length HMAC instance. -/
theorem hkdf_extract_expand_rfc5869_witness :
    hkdf_extract C0 [1] [2] = C0.hmac [1] [2] ∧
    hkdf_expand C0 [3] [4] 2 =
      some ((rfcStream C0.hmac [3] [4] 2).take 2) :=
  hkdf_extract_expand_rfc5869 C0 [1] [2] [3] [4] 2 2 (fun _ _ => rfl)
    (by decide) (by decide)

/-- Witness for C10 at concrete states. -/
theorem state_eq_compares_six_fields_witness :
    stateEq s0 { s0 with index := 3, identityPriv := [], suite := 9,
                         transcript := [1], cachedLeafSecret := [] } = true ∧
    (stateEq s0 nLeaf = true ↔
      (s0.epoch = nLeaf.epoch ∧ s0.groupId = nLeaf.groupId ∧
       s0.roster = nLeaf.roster ∧ s0.tree = nLeaf.tree ∧
       s0.messageMasterSecret = nLeaf.messageMasterSecret ∧
       s0.initSecret = nLeaf.initSecret)) :=
  state_eq_compares_six_fields s0 3 [] 9 [1] [] s0 nLeaf

end Mls
